import Mathlib

/-!
Verification of the g502d event-remapping daemon core (src/g502d.c).

The development shallowly embeds the core of the daemon:
  - the per-event translation performed by the mouse IO thread
    (mouse_thread_io_func, the switch on ev.type),
  - the fractional motion scaler (the accum_x / accum_y code),
  - the shared keyboard event ring buffer and its operations
    (send_input_event_to_keyboard, the pop performed by
    keyboard_process_o, clear_keyboard_buffer),
  - the startup and recovery control flow (main, the read-failure
    branches of mouse_thread_io_func and keyboard_process_i).
Machine integers are modelled as Nat / Int.  The motion scaler appears
twice: scale_step / scale_run follow the accumulator algorithm in exact
rational arithmetic, and scale_step_f / scale_run_f additionally model
the binary32 rounding performed by each store into the C float
accumulators (round to nearest, ties to even, 24 bit significand), with
the roundf function as round half away from zero.
-/

namespace G502d

/-! ## Event model

One struct input_event, reduced to the fields the core reads and writes:
type (unsigned 16 bit), code (unsigned 16 bit), value (signed 32 bit).
The timestamp is never inspected nor modified by the core and is omitted.
-/

/-- One input event: the (type, code, value) triplet of struct input_event. -/
structure InputEvent where
  type : Nat
  code : Nat
  value : Int
  deriving DecidableEq, Repr

instance : Inhabited InputEvent := ⟨⟨0, 0, 0⟩⟩

/-! Constants from linux/input-event-codes.h as used in the source. -/

def EV_SYN : Nat := 0x00
def EV_KEY : Nat := 0x01
def EV_REL : Nat := 0x02
def EV_MSC : Nat := 0x04
def BTN_SIDE : Nat := 0x113
def BTN_EXTRA : Nat := 0x114
def KEY_LEFTSHIFT : Nat := 42
def KEY_LEFTCTRL : Nat := 29
def REL_X : Nat := 0x00
def REL_Y : Nat := 0x01
def MSC_SCAN : Nat := 0x04

/-! Magic scan codes for mouse side buttons (g502d.c lines 33 to 37). -/

def SCAN_BTN_SIDE : Int := 0x90004
def SCAN_BTN_EXTRA : Int := 0x90005
def SCAN_KEY_SHIFT : Int := 0x70004
def SCAN_KEY_CTRL : Int := 0x70005

/-! ## Motion scaler

The C code keeps two float accumulators accum_x, accum_y and runs, for a
scaled axis event:
  accum += ev.value * DPI_SCALE;
  int int_move = (int)roundf(accum);
  accum -= int_move;
  ev.value = int_move;
roundf rounds to the nearest integer, halfway cases away from zero.
scale_step and scale_run below follow this algorithm in exact rational
arithmetic; scale_step_f and scale_run_f further down add the binary32
rounding of each store into the float accumulator.
-/

/-- Round to nearest, halfway cases away from zero: the semantics of the C
library roundf applied to the accumulator. -/
def roundf_away (q : ℚ) : ℤ :=
  if 0 ≤ q then ⌊q + 1 / 2⌋ else -⌊-q + 1 / 2⌋

/-- One scaler update for one axis: returns the new accumulator and the
emitted integer delta (the four accumulator lines of g502d.c, 284 to 287
and 289 to 292). -/
def scale_step (scale : ℚ) (accum : ℚ) (v : ℤ) : ℚ × ℤ :=
  let a := accum + v * scale
  let m := roundf_away a
  (a - m, m)

/-- Folding the scaler over a list of raw axis values: final accumulator and
the list of emitted integer deltas. -/
def scale_run (scale : ℚ) (accum : ℚ) : List ℤ → ℚ × List ℤ
  | [] => (accum, [])
  | v :: vs =>
    let p := scale_step scale accum v
    let r := scale_run scale p.1 vs
    (r.1, p.2 :: r.2)

/-! ## Float semantics of the accumulator stores

The accumulators accum_x and accum_y are C floats (g502d.c lines 229 and
230), so every store into them rounds the stored value to the nearest
binary32 value.  The int32 event value times the scale one half and the
promoted addition are exact in double precision, so one binary32
rounding at each store into the accumulator is the faithful model.
-/

/-- Round a rational to the nearest integer, ties to the even integer:
the tie rule of IEEE-754 round to nearest used by binary32 stores. -/
def roundEven (q : ℚ) : ℤ :=
  let f := ⌊q⌋
  if q - f < 1 / 2 then f
  else if 1 / 2 < q - f then f + 1
  else if f % 2 = 0 then f else f + 1

/-- Floor of the base-two logarithm of a positive rational, computed from
the bit sizes of numerator and denominator. -/
def floorLog2 (q : ℚ) : ℤ :=
  let e0 : ℤ := (Nat.size q.num.toNat : ℤ) - (Nat.size q.den : ℤ)
  if q < (2 : ℚ) ^ e0 then e0 - 1 else e0

/-- Round a rational to the nearest IEEE-754 binary32 value: 24 bit
significand, round to nearest, ties to even; the exponent is left
unbounded since overflow and subnormal thresholds are far outside the
magnitudes reached by the modelled runs.  Models a store into a C
float. -/
def fl32 (q : ℚ) : ℚ :=
  if q = 0 then 0
  else
    ((roundEven (q / (2 : ℚ) ^ (floorLog2 |q| - 23)) : ℚ) *
      (2 : ℚ) ^ (floorLog2 |q| - 23))

/-- One scaler update with float semantics: like scale_step, but every
value stored into the float accumulator is rounded to binary32 (g502d.c
lines 284 to 287 and 289 to 292 with accum a C float). -/
def scale_step_f (scale : ℚ) (accum : ℚ) (v : ℤ) : ℚ × ℤ :=
  let a := fl32 (accum + v * scale)
  let m := roundf_away a
  (fl32 (a - m), m)

/-- Folding the float-semantics scaler over a list of raw axis values. -/
def scale_run_f (scale : ℚ) (accum : ℚ) : List ℤ → ℚ × List ℤ
  | [] => (accum, [])
  | v :: vs =>
    let p := scale_step_f scale accum v
    let r := scale_run_f scale p.1 vs
    (r.1, p.2 :: r.2)

/-! ## Event translator

The switch statement of mouse_thread_io_func (g502d.c lines 263 to 339),
as a pure function of the accumulator state and the event read from the
mouse.  Each branch either writes to the virtual mouse device fd
(toMouse), calls send_input_event_to_keyboard (toKeyboard), or, for
EV_SYN, does both in that order.
-/

/-- State owned by the mouse IO thread: the two motion accumulators. -/
structure MouseState where
  accum_x : ℚ
  accum_y : ℚ
  deriving DecidableEq, Repr

/-- Destination-tagged output of the mouse IO thread for one input event. -/
inductive Out where
  | toKeyboard (ev : InputEvent)
  | toMouse (ev : InputEvent)
  deriving DecidableEq, Repr

/-- The body of the mouse IO loop for one successfully read event: the
switch on ev.type in mouse_thread_io_func (g502d.c lines 263 to 339). -/
def mouse_step (scale : ℚ) (s : MouseState) (ev : InputEvent) :
    MouseState × List Out :=
  if ev.type = EV_KEY then
    if ev.code = BTN_SIDE ∨ ev.code = BTN_EXTRA then
      let code2 := if ev.code = BTN_SIDE then KEY_LEFTSHIFT else KEY_LEFTCTRL
      (s, [Out.toKeyboard { ev with code := code2 }])
    else
      (s, [Out.toMouse ev])
  else if ev.type = EV_REL then
    if ev.code = REL_X then
      let p := scale_step scale s.accum_x ev.value
      ({ s with accum_x := p.1 }, [Out.toMouse { ev with value := p.2 }])
    else if ev.code = REL_Y then
      let p := scale_step scale s.accum_y ev.value
      ({ s with accum_y := p.1 }, [Out.toMouse { ev with value := p.2 }])
    else
      (s, [Out.toMouse ev])
  else if ev.type = EV_MSC then
    if ev.code = MSC_SCAN then
      if ev.value = SCAN_BTN_SIDE then
        (s, [Out.toKeyboard { ev with value := SCAN_KEY_SHIFT }])
      else if ev.value = SCAN_BTN_EXTRA then
        (s, [Out.toKeyboard { ev with value := SCAN_KEY_CTRL }])
      else
        (s, [Out.toMouse ev])
    else
      (s, [Out.toMouse ev])
  else if ev.type = EV_SYN then
    (s, [Out.toKeyboard ev, Out.toMouse ev])
  else
    (s, [Out.toMouse ev])

/-- Folding mouse_step over a list of events read from the mouse device. -/
def mouse_run (scale : ℚ) (s : MouseState) : List InputEvent → MouseState × List Out
  | [] => (s, [])
  | ev :: evs =>
    let p := mouse_step scale s ev
    let r := mouse_run scale p.1 evs
    (r.1, p.2 ++ r.2)

/-! ## Event transport

The keyboard event ring buffer (g502d.c lines 150 to 210 and 400 to 434):
a fixed array of EVENT_BUFFER_SIZE events, a write index head, a read
index tail, and a counting semaphore.  The buffer content is modelled as
a total function on indices; only indices below EVENT_BUFFER_SIZE are
ever used.
-/

/-- Capacity of the keyboard event ring buffer: 1 shifted left by 18. -/
def EVENT_BUFFER_SIZE : Nat := 262144

/-- The shared keyboard transport state: buffer, write index (head), read
index (tail), and the value of the counting semaphore kb_event_sem. -/
structure Transport where
  buf : Nat → InputEvent
  hd : Nat
  tl : Nat
  sem : Nat

/-- Number of pending (pushed, not yet popped) events in the transport. -/
def pending (t : Transport) : Nat :=
  (t.hd + EVENT_BUFFER_SIZE - t.tl) % EVENT_BUFFER_SIZE

/-- send_input_event_to_keyboard (g502d.c lines 182 to 210): computes the
next write index; if it equals the read index the process exits with
status 1 (modelled as the error value 1), otherwise the event is stored
at the write index, the write index advances and the semaphore is
posted. -/
def push (t : Transport) (ev : InputEvent) : Except Nat Transport :=
  let next_hd := (t.hd + 1) % EVENT_BUFFER_SIZE
  if next_hd = t.tl then
    Except.error 1
  else
    Except.ok
      { buf := fun i => if i = t.hd then ev else t.buf i
        hd := next_hd
        tl := t.tl
        sem := t.sem + 1 }

/-- The body of keyboard_process_o after sem_wait returns (g502d.c lines
419 to 422): read the event at the read index, advance the read index,
and account for the semaphore decrement performed by sem_wait.  Only
meaningful when the semaphore was positive. -/
def pop (t : Transport) : InputEvent × Transport :=
  (t.buf t.tl,
   { t with tl := (t.tl + 1) % EVENT_BUFFER_SIZE, sem := t.sem - 1 })

/-- clear_keyboard_buffer (g502d.c lines 161 to 179): set the write index
equal to the read index and drain the semaphore to zero. -/
def purge (t : Transport) : Transport :=
  { t with hd := t.tl, sem := 0 }

/-- Pushing a list of events in order; stops with the exit status if any
push overflows. -/
def pushList (t : Transport) : List InputEvent → Except Nat Transport
  | [] => Except.ok t
  | ev :: evs =>
    match push t ev with
    | Except.error c => Except.error c
    | Except.ok t2 => pushList t2 evs

/-- Popping k events in order, returning them oldest first. -/
def popN (t : Transport) : Nat → List InputEvent × Transport
  | 0 => ([], t)
  | k + 1 =>
    let p := pop t
    let r := popN p.2 k
    (p.1 :: r.1, r.2)

/-- The list of pending events of the transport, oldest first. -/
def listify (t : Transport) : List InputEvent :=
  (List.range (pending t)).map (fun i => t.buf ((t.tl + i) % EVENT_BUFFER_SIZE))

/-- The transport as initialised at startup: both indices zero, semaphore
zero, buffer zero-initialised. -/
def initTransport : Transport :=
  { buf := fun _ => default, hd := 0, tl := 0, sem := 0 }

/-! ## Startup and recovery control flow

main (g502d.c lines 438 to 599) locates both physical devices and returns
1 when either locate fails; it then sets up the two virtual uinput
devices (an excluded external collaborator, collapsed here into one
success flag, also returning 1 on failure) and starts the three threads.
The producer threads exit silently when their own initial
find_open_and_grab_device fails, and otherwise loop forever: a failed
read never leaves the loop.
-/

/-- Outcome of the startup phase of main. -/
inductive StartupResult where
  | exitCode (c : Nat)
  | running
  deriving DecidableEq, Repr

/-- The startup control flow of main (g502d.c lines 443 to 453: the two
initial locate calls, each returning 1 on failure with no retry; lines
455 to 586 collapsed into vdevOk: virtual device and thread creation,
also returning 1 on failure). -/
def main_startup (g502Found kbFound vdevOk : Bool) : StartupResult :=
  if g502Found = false then StartupResult.exitCode 1
  else if kbFound = false then StartupResult.exitCode 1
  else if vdevOk = false then StartupResult.exitCode 1
  else StartupResult.running

/-- Outcome of one iteration of a thread loop. -/
inductive LoopStep where
  | continueLoop (consecutive_failures : Nat)
  | threadExit
  deriving DecidableEq, Repr

/-- The read-failure branch of the mouse IO loop (g502d.c lines 240 to
258): attempt to reopen; on success reset the failure counter and the
accumulators, otherwise increment the counter and sleep; in either case
continue the loop. -/
def mouse_read_failure_step (reopenOk : Bool) (consecutive_failures : Nat) :
    LoopStep :=
  if reopenOk then LoopStep.continueLoop 0
  else LoopStep.continueLoop (consecutive_failures + 1)

/-- The read-failure branch of the keyboard input loop (g502d.c lines 368
to 385): clear the keyboard buffer, attempt to reopen, and continue the
loop either way. -/
def kb_read_failure_step (reopenOk : Bool) (consecutive_failures : Nat) :
    LoopStep :=
  if reopenOk then LoopStep.continueLoop 0
  else LoopStep.continueLoop (consecutive_failures + 1)

/-- Outcome of a producer thread entry before its loop. -/
inductive ThreadStart where
  | exitedSilently
  | enteredLoop
  deriving DecidableEq, Repr

/-- Entry of mouse_thread_io_func (g502d.c lines 218 to 226): if the
initial find, open and grab fails the thread exits via pthread_exit with
no retry, otherwise it enters the read loop. -/
def mouse_thread_start (acquireOk : Bool) : ThreadStart :=
  if acquireOk then ThreadStart.enteredLoop else ThreadStart.exitedSilently

/-- Entry of keyboard_process_i (g502d.c lines 354 to 361): same shape as
the mouse thread entry. -/
def kb_thread_start (acquireOk : Bool) : ThreadStart :=
  if acquireOk then ThreadStart.enteredLoop else ThreadStart.exitedSilently

/-- One iteration of keyboard_process_o (g502d.c lines 408 to 431): a
failed sem_wait logs and continues, a failed write logs and continues;
the loop never exits. -/
def kb_output_step (semWaitOk writeOk : Bool) : LoopStep :=
  if semWaitOk = false then LoopStep.continueLoop 0
  else if writeOk = false then LoopStep.continueLoop 0
  else LoopStep.continueLoop 0

/-- The supervision of main (g502d.c lines 588 to 591): main joins all
three threads in turn, so the process stays alive while any thread still
runs. -/
def process_alive (mouseRunning kbInRunning kbOutRunning : Bool) : Bool :=
  mouseRunning || kbInRunning || kbOutRunning

/-! ## Lemmas about the rounding and the scaler -/

/-- Rounding half away from zero lands within a half unit of the input. -/
theorem abs_sub_roundf_away_le (q : ℚ) : |q - (roundf_away q : ℚ)| ≤ 1 / 2 := by
  unfold roundf_away
  by_cases h : 0 ≤ q
  · simp only [h, if_true]
    have h1 := Int.floor_le (q + 1 / 2)
    have h2 := Int.lt_floor_add_one (q + 1 / 2)
    rw [abs_le]
    constructor <;> push_cast at * <;> linarith
  · simp only [h, if_false]
    have h1 := Int.floor_le (-q + 1 / 2)
    have h2 := Int.lt_floor_add_one (-q + 1 / 2)
    rw [abs_le]
    constructor <;> push_cast at * <;> linarith

/-- After any scaler step the accumulator carries at most half a unit. -/
theorem scale_step_accum_le (scale accum : ℚ) (v : ℤ) :
    |(scale_step scale accum v).1| ≤ 1 / 2 := by
  unfold scale_step
  exact abs_sub_roundf_away_le (accum + v * scale)

/-- The final accumulator of a run carries at most half a unit as long as
the initial one does. -/
theorem scale_run_accum_le (scale accum : ℚ) (vs : List ℤ)
    (h : |accum| ≤ 1 / 2) : |(scale_run scale accum vs).1| ≤ 1 / 2 := by
  induction vs generalizing accum with
  | nil => exact h
  | cons v vs ih => exact ih _ (scale_step_accum_le scale accum v)

/-- Telescoping identity: the emitted integer deltas of a run sum to the
exact scaled displacement plus the initial accumulator minus the final
accumulator. -/
theorem scale_run_sum (scale accum : ℚ) (vs : List ℤ) :
    ((scale_run scale accum vs).2.sum : ℚ) =
      accum + (vs.sum : ℚ) * scale - (scale_run scale accum vs).1 := by
  induction vs generalizing accum with
  | nil => simp [scale_run]
  | cons v vs ih =>
    simp only [scale_run, List.sum_cons]
    rw [Int.cast_add, ih (scale_step scale accum v).1]
    unfold scale_step
    push_cast
    ring

/-! ## Lemmas about the binary32 model -/

/-- Rounding ties to even returns an integer argument unchanged. -/
theorem roundEven_intCast (z : ℤ) : roundEven (z : ℚ) = z := by
  norm_num [roundEven]

/-- The floorLog2 of a positive rational brackets it between consecutive
powers of two. -/
theorem floorLog2_spec (q : ℚ) (hq : 0 < q) :
    (2:ℚ) ^ floorLog2 q ≤ q ∧ q < (2:ℚ) ^ (floorLog2 q + 1) := by
  have hnum : 0 < q.num := Rat.num_pos.mpr hq
  have hden : (0:ℚ) < (q.den : ℚ) := by exact_mod_cast q.den_pos
  set sn := Nat.size q.num.toNat with hsn
  set sd := Nat.size q.den with hsd
  have hn_pos : 0 < q.num.toNat := by omega
  have hsn_pos : 0 < sn := Nat.size_pos.mpr hn_pos
  have hsd_pos : 0 < sd := Nat.size_pos.mpr q.den_pos
  have hub_n : q.num.toNat < 2 ^ sn := Nat.lt_size_self _
  have hlb_n : 2 ^ (sn - 1) ≤ q.num.toNat := Nat.lt_size.mp (by omega)
  have hub_d : q.den < 2 ^ sd := Nat.lt_size_self _
  have hlb_d : 2 ^ (sd - 1) ≤ q.den := Nat.lt_size.mp (by omega)
  have hcast : ((q.num.toNat : ℤ) : ℚ) = (q.num : ℚ) := by
    rw [Int.toNat_of_nonneg hnum.le]
  have hub_nQ : (q.num : ℚ) < 2 ^ ((sn : ℤ)) := by
    rw [zpow_natCast, ← hcast]
    exact_mod_cast hub_n
  have hlb_nQ : (2:ℚ) ^ ((sn : ℤ) - 1) ≤ (q.num : ℚ) := by
    rw [show (sn : ℤ) - 1 = ((sn - 1 : ℕ) : ℤ) by omega, zpow_natCast, ← hcast]
    exact_mod_cast hlb_n
  have hub_dQ : (q.den : ℚ) < 2 ^ ((sd : ℤ)) := by
    rw [zpow_natCast]
    exact_mod_cast hub_d
  have hlb_dQ : (2:ℚ) ^ ((sd : ℤ) - 1) ≤ (q.den : ℚ) := by
    rw [show (sd : ℤ) - 1 = ((sd - 1 : ℕ) : ℤ) by omega, zpow_natCast]
    exact_mod_cast hlb_d
  set e0 : ℤ := (sn : ℤ) - sd with he0
  have hqU : q < 2 ^ (e0 + 1) := by
    rw [← Rat.num_div_den q, div_lt_iff₀ hden]
    calc (q.num : ℚ) < 2 ^ ((sn : ℤ)) := hub_nQ
      _ = 2 ^ (e0 + 1) * 2 ^ ((sd : ℤ) - 1) := by
          rw [← zpow_add₀ (by norm_num : (2:ℚ) ≠ 0)]
          congr 1
          omega
      _ ≤ 2 ^ (e0 + 1) * (q.den : ℚ) := by
          have := zpow_pos (show (0:ℚ) < 2 by norm_num) (e0 + 1)
          nlinarith [hlb_dQ]
  have hqL : (2:ℚ) ^ (e0 - 1) < q := by
    rw [← Rat.num_div_den q, lt_div_iff₀ hden]
    calc (2:ℚ) ^ (e0 - 1) * (q.den : ℚ) < 2 ^ (e0 - 1) * 2 ^ ((sd : ℤ)) := by
          have := zpow_pos (show (0:ℚ) < 2 by norm_num) (e0 - 1)
          nlinarith [hub_dQ]
      _ = 2 ^ ((sn : ℤ) - 1) := by
          rw [← zpow_add₀ (by norm_num : (2:ℚ) ≠ 0)]
          congr 1
          omega
      _ ≤ (q.num : ℚ) := hlb_nQ
  show (2:ℚ) ^ (if q < (2:ℚ) ^ e0 then e0 - 1 else e0) ≤ q ∧
    q < (2:ℚ) ^ ((if q < (2:ℚ) ^ e0 then e0 - 1 else e0) + 1)
  by_cases hb : q < (2:ℚ) ^ e0
  · rw [if_pos hb]
    exact ⟨hqL.le, by rwa [sub_add_cancel]⟩
  · rw [if_neg hb]
    exact ⟨not_lt.mp hb, hqU⟩

/-- floorLog2 is determined by any bracketing pair of powers of two. -/
theorem floorLog2_eq (q : ℚ) (e : ℤ) (h1 : (2:ℚ) ^ e ≤ q)
    (h2 : q < (2:ℚ) ^ (e + 1)) : floorLog2 q = e := by
  have hq : 0 < q := lt_of_lt_of_le (zpow_pos (by norm_num) e) h1
  obtain ⟨hL, hU⟩ := floorLog2_spec q hq
  by_contra hne
  rcases lt_or_gt_of_ne hne with hlt | hgt
  · have : (2:ℚ) ^ (floorLog2 q + 1) ≤ 2 ^ e :=
      zpow_le_zpow_right₀ (by norm_num) (by omega)
    linarith
  · have : (2:ℚ) ^ (e + 1) ≤ 2 ^ (floorLog2 q) :=
      zpow_le_zpow_right₀ (by norm_num) (by omega)
    linarith

/-- A half-integer of magnitude at most 2 to the 23 is an exact binary32
value: storing it into a float keeps it unchanged. -/
theorem fl32_eq_self_of_half (q : ℚ) (j : ℤ) (hj : q = j / 2)
    (hb : |q| ≤ 8388608) : fl32 q = q := by
  by_cases h0 : q = 0
  · simp [fl32, h0]
  · unfold fl32
    rw [if_neg h0]
    have habs : 0 < |q| := abs_pos.mpr h0
    obtain ⟨hL, hU⟩ := floorLog2_spec |q| habs
    have hfl_le : floorLog2 |q| ≤ 23 := by
      by_contra h
      push_neg at h
      have h24 : (2:ℚ) ^ (24:ℤ) ≤ 2 ^ (floorLog2 |q|) :=
        zpow_le_zpow_right₀ (by norm_num) (by omega)
      rw [show (2:ℚ) ^ (24:ℤ) = 16777216 by norm_num] at h24
      linarith
    rcases eq_or_lt_of_le hfl_le with heq | hlt
    · have h23 : (2:ℚ) ^ (23:ℤ) ≤ |q| := by rw [← heq]; exact hL
      have habs_eq : |q| = 8388608 := by
        rw [show (2:ℚ) ^ (23:ℤ) = 8388608 by norm_num] at h23
        linarith
      rw [heq]
      norm_num
      rcases abs_cases q with ⟨hq1, _⟩ | ⟨hq1, _⟩
      · have hqv : q = ((8388608 : ℤ) : ℚ) := by rw [← hq1, habs_eq]; norm_num
        rw [hqv, roundEven_intCast]
      · have hqv : q = ((-8388608 : ℤ) : ℚ) := by
          have : -q = 8388608 := by rw [← hq1, habs_eq]
          push_cast
          linarith
        rw [hqv, roundEven_intCast]
    · have he : floorLog2 |q| - 23 ≤ -1 := by omega
      set e : ℤ := floorLog2 |q| - 23 with hedef
      set k : ℕ := (-e - 1).toNat with hkdef
      have hk : (k : ℤ) = -e - 1 := Int.toNat_of_nonneg (by omega)
      have hpow : (2:ℚ) ^ e = ((2:ℚ) ^ (k + 1))⁻¹ := by
        rw [show e = -(((k+1) : ℕ) : ℤ) by push_cast; omega, zpow_neg, zpow_natCast]
      have hz : q / (2:ℚ) ^ e = ((j * 2 ^ k : ℤ) : ℚ) := by
        rw [hj, hpow]
        push_cast
        field_simp
        ring
      rw [hz, roundEven_intCast, ← hz]
      exact div_mul_cancel₀ q (zpow_ne_zero e (by norm_num))

/-- Storing half of 2 to the 24 plus 1 into a float rounds the half unit
away: the tie lands on the even neighbour. -/
theorem fl32_big : fl32 ((16777217 : ℚ) / 2) = 8388608 := by
  have hne : ((16777217 : ℚ) / 2) ≠ 0 := by norm_num
  have habs : |(16777217 : ℚ) / 2| = (16777217 : ℚ) / 2 := abs_of_pos (by norm_num)
  have hlog : floorLog2 |(16777217 : ℚ) / 2| = 23 := by
    rw [habs]
    apply floorLog2_eq
    · rw [show (2:ℚ) ^ (23:ℤ) = 8388608 by norm_num]
      norm_num
    · rw [show (2:ℚ) ^ (23+1:ℤ) = 16777216 by norm_num]
      norm_num
  have hfloor : ⌊(16777217:ℚ)/2⌋ = 8388608 := by
    rw [Int.floor_eq_iff]
    norm_num
  unfold fl32
  rw [if_neg hne, hlog]
  norm_num [roundEven, hfloor]

/-- Under the scale one half, one float-semantics scaler step from a
half-integer accumulator within half a unit agrees with the exact step
whenever the raw value is below 2 to the 24 in magnitude. -/
theorem scale_step_f_eq_exact (a : ℚ) (j : ℤ) (ha : a = j / 2)
    (haB : |a| ≤ 1 / 2) (v : ℤ) (hv : |v| < 2 ^ 24) :
    scale_step_f (1 / 2) a v = scale_step (1 / 2) a v := by
  have hsum : a + v * (1 / 2) = ((j + v : ℤ) : ℚ) / 2 := by
    rw [ha]
    push_cast
    ring
  have hvQ : |(v : ℚ)| ≤ 16777215 := by
    rw [← Int.cast_abs]
    exact_mod_cast (show |v| ≤ (16777215 : ℤ) by omega)
  have hb1 : |a + v * (1 / 2)| ≤ 8388608 := by
    calc |a + v * (1 / 2)| ≤ |a| + |(v : ℚ) * (1 / 2)| := abs_add _ _
      _ = |a| + |(v : ℚ)| * (1 / 2) := by rw [abs_mul]; norm_num
      _ ≤ 1 / 2 + 16777215 * (1 / 2) := by linarith
      _ ≤ 8388608 := by norm_num
  have hfl1 : fl32 (a + v * (1 / 2)) = a + v * (1 / 2) :=
    fl32_eq_self_of_half _ (j + v) hsum hb1
  simp only [scale_step_f, scale_step, hfl1]
  have hs2 : a + v * (1 / 2) - (roundf_away (a + v * (1 / 2)) : ℚ) =
      ((j + v - 2 * roundf_away (a + v * (1 / 2)) : ℤ) : ℚ) / 2 := by
    rw [hsum]
    push_cast
    ring
  have hb2 : |a + v * (1 / 2) - (roundf_away (a + v * (1 / 2)) : ℚ)| ≤ 8388608 :=
    le_trans (abs_sub_roundf_away_le _) (by norm_num)
  rw [fl32_eq_self_of_half _ _ hs2 hb2]

/-- Under the scale one half, the float-semantics run agrees with the
exact run from a half-integer accumulator within half a unit, as long as
every raw value stays below 2 to the 24 in magnitude. -/
theorem scale_run_f_eq_exact (vs : List ℤ) (hv : ∀ v ∈ vs, |v| < 2 ^ 24)
    (a : ℚ) (j : ℤ) (ha : a = j / 2) (haB : |a| ≤ 1 / 2) :
    scale_run_f (1 / 2) a vs = scale_run (1 / 2) a vs := by
  induction vs generalizing a j with
  | nil => rfl
  | cons v vs ih =>
    have hstep := scale_step_f_eq_exact a j ha haB v (hv v (List.mem_cons_self v vs))
    have hnew : (scale_step (1 / 2) a v).1 =
        ((j + v - 2 * roundf_away (a + v * (1 / 2)) : ℤ) : ℚ) / 2 := by
      simp only [scale_step]
      rw [ha]
      push_cast
      ring
    simp only [scale_run_f, scale_run, hstep]
    rw [ih (fun w hw => hv w (List.mem_cons_of_mem v hw)) _ _ hnew
      (scale_step_accum_le _ _ _)]

/-- One float-semantics step at the raw value 2 to the 24 plus 1: the
half-unit remainder is rounded away by the float store, so the
accumulator returns to zero and the emitted delta undershoots. -/
theorem scale_step_f_big : scale_step_f (1 / 2) 0 16777217 = (0, 8388608) := by
  have h1 : (0 : ℚ) + (16777217 : ℤ) * (1 / 2) = (16777217 : ℚ) / 2 := by
    push_cast
    ring
  have h2 : roundf_away (8388608 : ℚ) = 8388608 := by
    unfold roundf_away
    rw [if_pos (by norm_num), Int.floor_eq_iff]
    norm_num
  simp only [scale_step_f, h1, fl32_big, h2]
  norm_num [fl32]

/-! ## Lemmas about the transport -/

/-- The pending count is below the capacity. -/
theorem pending_lt (t : Transport) : pending t < EVENT_BUFFER_SIZE := by
  simp only [pending, EVENT_BUFFER_SIZE]
  omega

/-- The buffer is full (the next write index equals the read index) exactly
when the pending count is one below the capacity. -/
theorem full_iff_pending (t : Transport)
    (hh : t.hd < EVENT_BUFFER_SIZE) (ht : t.tl < EVENT_BUFFER_SIZE) :
    (t.hd + 1) % EVENT_BUFFER_SIZE = t.tl ↔
      pending t = EVENT_BUFFER_SIZE - 1 := by
  simp only [pending, EVENT_BUFFER_SIZE] at *
  omega

/-- A transport with pending count zero holds no listed events. -/
theorem listify_pending_zero (t : Transport) (h : pending t = 0) :
    listify t = [] := by
  simp [listify, h]

/-- A successful push appends the event to the pending list, advances the
write index, leaves the read index alone, and posts the semaphore. -/
theorem push_ok (t : Transport) (ev : InputEvent)
    (hh : t.hd < EVENT_BUFFER_SIZE) (ht : t.tl < EVENT_BUFFER_SIZE)
    (hnf : pending t ≠ EVENT_BUFFER_SIZE - 1) :
    ∃ t2, push t ev = Except.ok t2 ∧ listify t2 = listify t ++ [ev] ∧
      pending t2 = pending t + 1 ∧ t2.hd = (t.hd + 1) % EVENT_BUFFER_SIZE ∧
      t2.hd < EVENT_BUFFER_SIZE ∧ t2.tl = t.tl ∧ t2.sem = t.sem + 1 ∧
      t2.buf t.hd = ev := by
  have hne : (t.hd + 1) % EVENT_BUFFER_SIZE ≠ t.tl := by
    rw [Ne, full_iff_pending t hh ht]
    exact hnf
  refine ⟨{ buf := fun i => if i = t.hd then ev else t.buf i,
            hd := (t.hd + 1) % EVENT_BUFFER_SIZE, tl := t.tl,
            sem := t.sem + 1 },
          ?_, ?_, ?_, rfl, ?_, rfl, rfl, ?_⟩
  · unfold push
    rw [if_neg hne]
  · show (List.range (pending _)).map _ = _
    have hpend : pending
        { buf := fun i => if i = t.hd then ev else t.buf i,
          hd := (t.hd + 1) % EVENT_BUFFER_SIZE, tl := t.tl,
          sem := t.sem + 1 } = pending t + 1 := by
      simp only [pending, EVENT_BUFFER_SIZE] at *
      omega
    rw [hpend, List.range_succ, List.map_append, List.map_singleton]
    congr 1
    · apply List.map_congr_left
      intro i hi
      rw [List.mem_range] at hi
      have hne2 : (t.tl + i) % EVENT_BUFFER_SIZE ≠ t.hd := by
        simp only [pending, EVENT_BUFFER_SIZE] at *
        omega
      simp [hne2]
    · have heq : (t.tl + pending t) % EVENT_BUFFER_SIZE = t.hd := by
        simp only [pending, EVENT_BUFFER_SIZE] at *
        omega
      simp [heq]
  · simp only [pending, EVENT_BUFFER_SIZE] at *
    omega
  · simp only [pending, EVENT_BUFFER_SIZE] at *
    omega
  · simp

/-- A pop on a nonempty transport returns the head of the pending list and
keeps the remainder, decrementing the pending count. -/
theorem pop_head (t : Transport)
    (hh : t.hd < EVENT_BUFFER_SIZE) (ht : t.tl < EVENT_BUFFER_SIZE)
    (hp : 0 < pending t) :
    listify t = (pop t).1 :: listify (pop t).2 ∧
      pending (pop t).2 = pending t - 1 ∧
      (pop t).2.hd = t.hd ∧ (pop t).2.tl < EVENT_BUFFER_SIZE := by
  have hpend : pending (pop t).2 = pending t - 1 := by
    simp only [pop, pending, EVENT_BUFFER_SIZE] at *
    omega
  refine ⟨?_, hpend, rfl, Nat.mod_lt _ (by norm_num [EVENT_BUFFER_SIZE])⟩
  unfold listify
  rw [hpend]
  obtain ⟨k, hk⟩ : ∃ k, pending t = k + 1 :=
    ⟨pending t - 1, by omega⟩
  rw [hk]
  simp only [Nat.add_sub_cancel]
  rw [List.range_succ_eq_map, List.map_cons, List.map_map]
  congr 1
  · show t.buf ((t.tl + 0) % EVENT_BUFFER_SIZE) = (pop t).1
    simp only [pop, Nat.add_zero, Nat.mod_eq_of_lt ht]
  · apply List.map_congr_left
    intro i _
    show t.buf ((t.tl + (i + 1)) % EVENT_BUFFER_SIZE) =
      (pop t).2.buf (((pop t).2.tl + i) % EVENT_BUFFER_SIZE)
    simp only [pop]
    rw [Nat.mod_add_mod]
    congr 2
    omega

/-- Popping any count up to the pending count returns exactly that prefix
of the pending list. -/
theorem popN_take (k : Nat) (t : Transport)
    (hh : t.hd < EVENT_BUFFER_SIZE) (ht : t.tl < EVENT_BUFFER_SIZE)
    (hk : k ≤ pending t) :
    (popN t k).1 = (listify t).take k := by
  induction k generalizing t with
  | zero => simp [popN]
  | succ k ih =>
    obtain ⟨hlist, hpend, hhd, htl⟩ := pop_head t hh ht (by omega)
    show ((pop t).1 :: (popN (pop t).2 k).1) = (listify t).take (k + 1)
    rw [hlist, List.take_succ_cons]
    rw [ih (pop t).2 (hhd ▸ hh) htl (by omega)]

/-- Pushing a whole list succeeds while the capacity is not reached, and
appends the list to the pending events in order. -/
theorem pushList_ok (L : List InputEvent) (t : Transport)
    (hh : t.hd < EVENT_BUFFER_SIZE) (ht : t.tl < EVENT_BUFFER_SIZE)
    (hfit : pending t + L.length < EVENT_BUFFER_SIZE) :
    ∃ t2, pushList t L = Except.ok t2 ∧ listify t2 = listify t ++ L ∧
      pending t2 = pending t + L.length ∧
      t2.hd < EVENT_BUFFER_SIZE ∧ t2.tl = t.tl := by
  induction L generalizing t with
  | nil => exact ⟨t, rfl, by simp, by simp, hh, rfl⟩
  | cons ev L ih =>
    obtain ⟨t1, hpush, hlist1, hpend1, _, hhd1, htl1, _, _⟩ :=
      push_ok t ev hh ht (by simp at hfit; omega)
    obtain ⟨t2, hrest, hlist2, hpend2, hhd2, htl2⟩ :=
      ih t1 hhd1 (htl1 ▸ ht) (by simp at hfit ⊢; omega)
    refine ⟨t2, ?_, ?_, ?_, hhd2, htl2.trans htl1⟩
    · show pushList t (ev :: L) = Except.ok t2
      unfold pushList
      rw [hpush]
      exact hrest
    · rw [hlist2, hlist1]
      simp
    · rw [hpend2, hpend1]
      simp
      omega

/-! ## Theorems for the claims on the transport -/

/-- C3: the transport capacity is 2 to the 18; a push on a non-full
transport stores the event at the write cursor, advances the write cursor,
leaves the read cursor alone and increments the pending-count semaphore;
when the next write position would equal the read position, which happens
exactly when 2 to the 18 minus 1 entries are pending, the push reports the
overflow by terminating the process with the nonzero exit status 1,
neither dropping the event silently nor moving either cursor. -/
theorem push_overflow_policy (t : Transport) (ev : InputEvent)
    (hh : t.hd < EVENT_BUFFER_SIZE) (ht : t.tl < EVENT_BUFFER_SIZE) :
    EVENT_BUFFER_SIZE = 2 ^ 18 ∧
    ((t.hd + 1) % EVENT_BUFFER_SIZE = t.tl ↔
      pending t = EVENT_BUFFER_SIZE - 1) ∧
    (pending t ≠ EVENT_BUFFER_SIZE - 1 →
      ∃ t2, push t ev = Except.ok t2 ∧ t2.buf t.hd = ev ∧
        t2.hd = (t.hd + 1) % EVENT_BUFFER_SIZE ∧ t2.tl = t.tl ∧
        t2.sem = t.sem + 1 ∧ pending t2 = pending t + 1) ∧
    (pending t = EVENT_BUFFER_SIZE - 1 →
      push t ev = Except.error 1 ∧ (1 : Nat) ≠ 0) := by
  refine ⟨by norm_num [EVENT_BUFFER_SIZE], full_iff_pending t hh ht, ?_, ?_⟩
  · intro hnf
    obtain ⟨t2, h1, _, h3, h4, h5, h6, h7, h8⟩ := push_ok t ev hh ht hnf
    exact ⟨t2, h1, h8, h4, h6, h7, h3⟩
  · intro hfull
    refine ⟨?_, by norm_num⟩
    unfold push
    rw [if_pos ((full_iff_pending t hh ht).mpr hfull)]

/-- Concrete instance of push_overflow_policy on the freshly initialised
transport. -/
theorem push_overflow_policy_witness :
    EVENT_BUFFER_SIZE = 2 ^ 18 ∧
    ((initTransport.hd + 1) % EVENT_BUFFER_SIZE = initTransport.tl ↔
      pending initTransport = EVENT_BUFFER_SIZE - 1) ∧
    (pending initTransport ≠ EVENT_BUFFER_SIZE - 1 →
      ∃ t2, push initTransport ⟨EV_KEY, KEY_LEFTSHIFT, 1⟩ = Except.ok t2 ∧
        t2.buf initTransport.hd = ⟨EV_KEY, KEY_LEFTSHIFT, 1⟩ ∧
        t2.hd = (initTransport.hd + 1) % EVENT_BUFFER_SIZE ∧
        t2.tl = initTransport.tl ∧ t2.sem = initTransport.sem + 1 ∧
        pending t2 = pending initTransport + 1) ∧
    (pending initTransport = EVENT_BUFFER_SIZE - 1 →
      push initTransport ⟨EV_KEY, KEY_LEFTSHIFT, 1⟩ = Except.error 1 ∧
      (1 : Nat) ≠ 0) :=
  push_overflow_policy initTransport ⟨EV_KEY, KEY_LEFTSHIFT, 1⟩
    (by norm_num [initTransport, EVENT_BUFFER_SIZE])
    (by norm_num [initTransport, EVENT_BUFFER_SIZE])

/-- C4: the transport is first-in first-out; pushing any sequence of
events into a drained transport and then popping that many events returns
exactly the pushed sequence in push order, which is the order the
keyboard output thread writes them to its sink. -/
theorem transport_fifo (t : Transport) (L : List InputEvent)
    (hh : t.hd < EVENT_BUFFER_SIZE) (ht : t.tl < EVENT_BUFFER_SIZE)
    (h0 : pending t = 0) (hfit : L.length < EVENT_BUFFER_SIZE) :
    (pushList t L).map (fun t2 => (popN t2 L.length).1) = Except.ok L := by
  obtain ⟨t2, hpushes, hlist, hpend, hhd, htl⟩ :=
    pushList_ok L t hh ht (by omega)
  rw [hpushes]
  simp only [Except.map]
  rw [popN_take L.length t2 hhd (htl ▸ ht) (by omega)]
  rw [hlist, listify_pending_zero t h0, List.nil_append, List.take_length]

/-- Concrete instance of transport_fifo: a remapped shift press and
release pushed into the fresh transport pop out in push order. -/
theorem transport_fifo_witness :
    (pushList initTransport
        [⟨EV_KEY, KEY_LEFTSHIFT, 1⟩, ⟨EV_KEY, KEY_LEFTSHIFT, 0⟩]).map
      (fun t2 => (popN t2 2).1) =
      Except.ok [⟨EV_KEY, KEY_LEFTSHIFT, 1⟩, ⟨EV_KEY, KEY_LEFTSHIFT, 0⟩] :=
  transport_fifo initTransport
    [⟨EV_KEY, KEY_LEFTSHIFT, 1⟩, ⟨EV_KEY, KEY_LEFTSHIFT, 0⟩]
    (by norm_num [initTransport, EVENT_BUFFER_SIZE])
    (by norm_num [initTransport, EVENT_BUFFER_SIZE])
    (by norm_num [initTransport, pending, EVENT_BUFFER_SIZE])
    (by norm_num [EVENT_BUFFER_SIZE])

/-- C5: immediately after a purge the write cursor equals the read cursor
and the semaphore is zero, so the pending count is zero; and every pop
issued after the purge returns only events pushed after the purge, in
order, so no event enqueued before the purge is ever delivered. -/
theorem purge_correct (t : Transport) (L : List InputEvent) (k : Nat)
    (ht : t.tl < EVENT_BUFFER_SIZE)
    (hfit : L.length < EVENT_BUFFER_SIZE) (hk : k ≤ L.length) :
    (purge t).hd = (purge t).tl ∧ (purge t).sem = 0 ∧
    pending (purge t) = 0 ∧
    (pushList (purge t) L).map (fun t2 => (popN t2 k).1) =
      Except.ok (L.take k) := by
  have hpz : pending (purge t) = 0 := by
    simp [purge, pending]
  refine ⟨rfl, rfl, hpz, ?_⟩
  obtain ⟨t2, hpushes, hlist, hpend, hhd, htl⟩ :=
    pushList_ok L (purge t) ht ht (by omega)
  rw [hpushes]
  simp only [Except.map]
  rw [popN_take k t2 hhd (htl ▸ (ht : (purge t).tl < EVENT_BUFFER_SIZE))
    (by omega)]
  rw [hlist, listify_pending_zero (purge t) hpz, List.nil_append]

/-- Concrete instance of purge_correct: purging the fresh transport, then
pushing one event and popping it back. -/
theorem purge_correct_witness :
    (purge initTransport).hd = (purge initTransport).tl ∧
    (purge initTransport).sem = 0 ∧
    pending (purge initTransport) = 0 ∧
    (pushList (purge initTransport) [⟨EV_KEY, KEY_LEFTCTRL, 1⟩]).map
      (fun t2 => (popN t2 1).1) =
      Except.ok ([⟨EV_KEY, KEY_LEFTCTRL, 1⟩].take 1) :=
  purge_correct initTransport [⟨EV_KEY, KEY_LEFTCTRL, 1⟩] 1
    (by norm_num [initTransport, EVENT_BUFFER_SIZE])
    (by norm_num [EVENT_BUFFER_SIZE])
    (by norm_num)

/-- C9: the purge discards every pending entry regardless of producer; a
remapped modifier press already enqueued is removed by a purge, after
which the paired release pushed later is delivered while the press never
is, leaving the pair split. -/
theorem purge_discards_cross_producer :
    (push initTransport ⟨EV_KEY, KEY_LEFTSHIFT, 1⟩).map pending =
      Except.ok 1 ∧
    (push initTransport ⟨EV_KEY, KEY_LEFTSHIFT, 1⟩).map
      (fun t1 => pending (purge t1)) = Except.ok 0 ∧
    (push initTransport ⟨EV_KEY, KEY_LEFTSHIFT, 1⟩).map
      (fun t1 => (push (purge t1) ⟨EV_KEY, KEY_LEFTSHIFT, 0⟩).map
        (fun t3 => ((pop t3).1, pending (pop t3).2))) =
      Except.ok (Except.ok (⟨EV_KEY, KEY_LEFTSHIFT, 0⟩, 0)) :=
  ⟨rfl, rfl, rfl⟩

/-! ## Theorems for the claims on the translator -/

/-- C1: an EV_KEY event whose code is BTN_SIDE or BTN_EXTRA is emitted
exactly once, to the keyboard transport, with the code rewritten to
KEY_LEFTSHIFT or KEY_LEFTCTRL respectively and the transition value
preserved, and nothing is written to the pointer output for it; hence a
press then release of such a button yields exactly the mapped modifier
press then release on the keyboard side and zero occurrences of the
original code on the pointer output. -/
theorem remapped_button_translation (scale : ℚ) (s : MouseState) (c : Nat)
    (h : c = BTN_SIDE ∨ c = BTN_EXTRA) (v : ℤ) :
    mouse_step scale s ⟨EV_KEY, c, v⟩ =
      (s, [Out.toKeyboard
            ⟨EV_KEY, if c = BTN_SIDE then KEY_LEFTSHIFT else KEY_LEFTCTRL, v⟩]) ∧
    (mouse_run scale s [⟨EV_KEY, c, 1⟩, ⟨EV_KEY, c, 0⟩]).2 =
      [Out.toKeyboard
         ⟨EV_KEY, if c = BTN_SIDE then KEY_LEFTSHIFT else KEY_LEFTCTRL, 1⟩,
       Out.toKeyboard
         ⟨EV_KEY, if c = BTN_SIDE then KEY_LEFTSHIFT else KEY_LEFTCTRL, 0⟩] := by
  rcases h with h | h <;> subst h <;>
    simp [mouse_run, mouse_step, EV_KEY, EV_SYN, EV_REL, EV_MSC,
      BTN_SIDE, BTN_EXTRA, KEY_LEFTSHIFT, KEY_LEFTCTRL]

/-- Concrete instance of remapped_button_translation: BTN_SIDE with the
autorepeat value 2, then press and release. -/
theorem remapped_button_translation_witness :
    mouse_step (1 / 2) ⟨0, 0⟩ ⟨EV_KEY, BTN_SIDE, 2⟩ =
      (⟨0, 0⟩, [Out.toKeyboard
        ⟨EV_KEY, if BTN_SIDE = BTN_SIDE then KEY_LEFTSHIFT else KEY_LEFTCTRL, 2⟩]) ∧
    (mouse_run (1 / 2) ⟨0, 0⟩ [⟨EV_KEY, BTN_SIDE, 1⟩, ⟨EV_KEY, BTN_SIDE, 0⟩]).2 =
      [Out.toKeyboard
         ⟨EV_KEY, if BTN_SIDE = BTN_SIDE then KEY_LEFTSHIFT else KEY_LEFTCTRL, 1⟩,
       Out.toKeyboard
         ⟨EV_KEY, if BTN_SIDE = BTN_SIDE then KEY_LEFTSHIFT else KEY_LEFTCTRL, 0⟩] :=
  remapped_button_translation (1 / 2) ⟨0, 0⟩ BTN_SIDE (Or.inl rfl) 2

/-- C6: a synchronization marker event read from the mouse is duplicated
unchanged to both destinations, appearing exactly once on the keyboard
transport and exactly once on the pointer output. -/
theorem syn_duplication (scale : ℚ) (s : MouseState) (ev : InputEvent)
    (h : ev.type = EV_SYN) :
    mouse_step scale s ev = (s, [Out.toKeyboard ev, Out.toMouse ev]) ∧
    (mouse_step scale s ev).2.count (Out.toKeyboard ev) = 1 ∧
    (mouse_step scale s ev).2.count (Out.toMouse ev) = 1 := by
  have hstep : mouse_step scale s ev = (s, [Out.toKeyboard ev, Out.toMouse ev]) := by
    simp [mouse_step, h, EV_SYN, EV_KEY, EV_REL, EV_MSC]
  refine ⟨hstep, ?_, ?_⟩ <;> rw [hstep] <;>
    simp [List.count_cons, List.count_nil]

/-- Concrete instance of syn_duplication at the SYN_REPORT marker. -/
theorem syn_duplication_witness :
    mouse_step (1 / 2) ⟨0, 0⟩ ⟨EV_SYN, 0, 0⟩ =
      (⟨0, 0⟩, [Out.toKeyboard ⟨EV_SYN, 0, 0⟩, Out.toMouse ⟨EV_SYN, 0, 0⟩]) ∧
    (mouse_step (1 / 2) ⟨0, 0⟩ ⟨EV_SYN, 0, 0⟩).2.count
      (Out.toKeyboard ⟨EV_SYN, 0, 0⟩) = 1 ∧
    (mouse_step (1 / 2) ⟨0, 0⟩ ⟨EV_SYN, 0, 0⟩).2.count
      (Out.toMouse ⟨EV_SYN, 0, 0⟩) = 1 :=
  syn_duplication (1 / 2) ⟨0, 0⟩ ⟨EV_SYN, 0, 0⟩ rfl

/-- C7: an EV_MSC scan-code event whose value is a mapped scan constant
has its value rewritten to the target modifier scan constant and goes to
the keyboard transport; any other scan-code event passes through
unchanged to the pointer output. -/
theorem msc_scan_translation (scale : ℚ) (s : MouseState) (ev : InputEvent)
    (h1 : ev.type = EV_MSC) (h2 : ev.code = MSC_SCAN) :
    (ev.value = SCAN_BTN_SIDE →
      mouse_step scale s ev = (s, [Out.toKeyboard { ev with value := SCAN_KEY_SHIFT }])) ∧
    (ev.value = SCAN_BTN_EXTRA →
      mouse_step scale s ev = (s, [Out.toKeyboard { ev with value := SCAN_KEY_CTRL }])) ∧
    (ev.value ≠ SCAN_BTN_SIDE → ev.value ≠ SCAN_BTN_EXTRA →
      mouse_step scale s ev = (s, [Out.toMouse ev])) := by
  refine ⟨?_, ?_, ?_⟩ <;> intros <;>
    simp_all [mouse_step, EV_MSC, EV_KEY, EV_REL, EV_SYN, MSC_SCAN,
      SCAN_BTN_SIDE, SCAN_BTN_EXTRA, SCAN_KEY_SHIFT, SCAN_KEY_CTRL]

/-- Concrete instance of msc_scan_translation at the BTN_SIDE scan code. -/
theorem msc_scan_translation_witness :
    ((⟨EV_MSC, MSC_SCAN, SCAN_BTN_SIDE⟩ : InputEvent).value = SCAN_BTN_SIDE →
      mouse_step (1 / 2) ⟨0, 0⟩ ⟨EV_MSC, MSC_SCAN, SCAN_BTN_SIDE⟩ =
        (⟨0, 0⟩, [Out.toKeyboard ⟨EV_MSC, MSC_SCAN, SCAN_KEY_SHIFT⟩])) ∧
    ((⟨EV_MSC, MSC_SCAN, SCAN_BTN_SIDE⟩ : InputEvent).value = SCAN_BTN_EXTRA →
      mouse_step (1 / 2) ⟨0, 0⟩ ⟨EV_MSC, MSC_SCAN, SCAN_BTN_SIDE⟩ =
        (⟨0, 0⟩, [Out.toKeyboard ⟨EV_MSC, MSC_SCAN, SCAN_KEY_CTRL⟩])) ∧
    ((⟨EV_MSC, MSC_SCAN, SCAN_BTN_SIDE⟩ : InputEvent).value ≠ SCAN_BTN_SIDE →
      (⟨EV_MSC, MSC_SCAN, SCAN_BTN_SIDE⟩ : InputEvent).value ≠ SCAN_BTN_EXTRA →
      mouse_step (1 / 2) ⟨0, 0⟩ ⟨EV_MSC, MSC_SCAN, SCAN_BTN_SIDE⟩ =
        (⟨0, 0⟩, [Out.toMouse ⟨EV_MSC, MSC_SCAN, SCAN_BTN_SIDE⟩])) :=
  msc_scan_translation (1 / 2) ⟨0, 0⟩ ⟨EV_MSC, MSC_SCAN, SCAN_BTN_SIDE⟩ rfl rfl

/-- C2 counterexample: with the binary32 semantics of the C float
accumulator, four raw events of value 16777217 (2 to the 24 plus 1) at
scale one half each lose their half-unit remainder at the float store
and emit 8388608; the emitted sum 33554432 differs from the rounded
scaled displacement 33554434 by 2, so the claimed bound of at most 1
fails at this input. -/
theorem motion_fidelity_counterexample :
    (scale_run_f (1 / 2) 0 [16777217, 16777217, 16777217, 16777217]).2 =
      [8388608, 8388608, 8388608, 8388608] ∧
    ¬ ((∀ k : Nat,
        |(scale_run_f (1 / 2) 0
            (([16777217, 16777217, 16777217, 16777217] : List ℤ).take k)).1| ≤ 1 / 2) ∧
      |((scale_run_f (1 / 2) 0 [16777217, 16777217, 16777217, 16777217]).2.sum : ℚ) -
        (roundf_away ((([16777217, 16777217, 16777217, 16777217] : List ℤ).sum : ℚ) *
          (1 / 2)) : ℚ)| ≤ 1) := by
  have hrun : scale_run_f (1 / 2) 0 [16777217, 16777217, 16777217, 16777217] =
      (0, [8388608, 8388608, 8388608, 8388608]) := by
    simp only [scale_run_f, scale_step_f_big]
  refine ⟨by rw [hrun], ?_⟩
  rintro ⟨-, hsum⟩
  rw [hrun] at hsum
  have hr : roundf_away ((([16777217, 16777217, 16777217, 16777217] : List ℤ).sum : ℚ) *
      (1 / 2)) = 33554434 := by
    have h4 : (([16777217, 16777217, 16777217, 16777217] : List ℤ).sum : ℚ) * (1 / 2) =
        33554434 := by norm_num
    rw [h4]
    unfold roundf_away
    rw [if_pos (by norm_num), Int.floor_eq_iff]
    norm_num
  rw [hr] at hsum
  norm_num at hsum

/-- C2 amended: the translator applies the accumulator algorithm to each
scaled axis through its float accumulator; for scale factor one half,
from a zero accumulator, and any sequence of raw relative values each
below 2 to the 24 in magnitude (so that no binary32 store rounds away
the fractional remainder), the accumulator stays within half a unit
after every prefix and the sum of the emitted integer deltas differs
from the rounded scaled total displacement by at most one. -/
theorem motion_fidelity_bounded (vs : List ℤ) (hv : ∀ v ∈ vs, |v| < 2 ^ 24) :
    (∀ k : Nat, |(scale_run_f (1 / 2) 0 (vs.take k)).1| ≤ 1 / 2) ∧
    |((scale_run_f (1 / 2) 0 vs).2.sum : ℚ) -
      (roundf_away ((vs.sum : ℚ) * (1 / 2)) : ℚ)| ≤ 1 := by
  have hequiv : scale_run_f (1 / 2) 0 vs = scale_run (1 / 2) 0 vs :=
    scale_run_f_eq_exact vs hv 0 0 (by norm_num) (by norm_num)
  constructor
  · intro k
    rw [scale_run_f_eq_exact _ (fun w hw => hv w (List.take_subset k vs hw)) 0 0
      (by norm_num) (by norm_num)]
    exact scale_run_accum_le _ _ _ (by norm_num)
  · rw [hequiv, scale_run_sum]
    have hacc : |(scale_run (1 / 2) 0 vs).1| ≤ 1 / 2 :=
      scale_run_accum_le _ _ _ (by norm_num)
    have hrnd := abs_sub_roundf_away_le ((vs.sum : ℚ) * (1 / 2))
    rw [abs_le] at *
    constructor <;> linarith

/-- Concrete instance of motion_fidelity_bounded on a short sequence of
small raw values. -/
theorem motion_fidelity_bounded_witness :
    (∀ k : Nat, |(scale_run_f (1 / 2) 0 (([3, -5] : List ℤ).take k)).1| ≤ 1 / 2) ∧
    |((scale_run_f (1 / 2) 0 [3, -5]).2.sum : ℚ) -
      (roundf_away ((([3, -5] : List ℤ).sum : ℚ) * (1 / 2)) : ℚ)| ≤ 1 :=
  motion_fidelity_bounded [3, -5] (by decide)

/-! ## Theorems for the claims on startup and recovery -/

/-- C8: a failing initial locate of either required physical device makes
the process exit with status 1 immediately, with no retry; within the
modelled core every startup outcome is either that nonzero exit or
entering the running phase, and a read failure on an already acquired
device always continues its loop after a reopen attempt and never
terminates the thread or the process. -/
theorem startup_fatal_no_retry :
    (∀ k v, main_startup false k v = StartupResult.exitCode 1) ∧
    (∀ g v, main_startup g false v = StartupResult.exitCode 1) ∧
    (∀ g k v, main_startup g k v = StartupResult.exitCode 1 ∨
      main_startup g k v = StartupResult.running) ∧
    (1 : Nat) ≠ 0 ∧
    (∀ reopenOk cf, mouse_read_failure_step reopenOk cf ≠ LoopStep.threadExit) ∧
    (∀ reopenOk cf, kb_read_failure_step reopenOk cf ≠ LoopStep.threadExit) := by
  refine ⟨?_, ?_, ?_, by norm_num, ?_, ?_⟩
  · intro k v
    cases k <;> cases v <;> rfl
  · intro g v
    cases g <;> cases v <;> rfl
  · intro g k v
    cases g <;> cases k <;> cases v <;> simp [main_startup]
  · intro reopenOk cf
    cases reopenOk <;> simp [mouse_read_failure_step]
  · intro reopenOk cf
    cases reopenOk <;> simp [kb_read_failure_step]

/-- C10: when a producer thread's own initial locate or grab fails, the
thread exits silently with no retry instead of entering its loop, while
the process stays alive on the remaining threads: the keyboard output
loop never exits, and main, which joins all three threads, keeps the
process running while any of them runs. -/
theorem producer_acquire_failure_degrades :
    mouse_thread_start false = ThreadStart.exitedSilently ∧
    kb_thread_start false = ThreadStart.exitedSilently ∧
    mouse_thread_start true = ThreadStart.enteredLoop ∧
    kb_thread_start true = ThreadStart.enteredLoop ∧
    (∀ semOk writeOk, kb_output_step semOk writeOk = LoopStep.continueLoop 0) ∧
    process_alive false true true = true ∧
    process_alive false false true = true := by
  refine ⟨rfl, rfl, rfl, rfl, ?_, rfl, rfl⟩
  intro a b
  cases a <;> cases b <;> rfl

end G502d
